import Mathlib

/-!
Verification of the Lucas asset-pricing fixed-point solver
(`DivProcess` / `LucasEconomy.priceOnePeriod` / `LucasEconomy.solve`)
from the notebook `Lucas-Asset-Pricing-Model.ipynb`, as a shallow
embedding over the real numbers.  The external toolkit pieces the
notebook consumes (CRRA marginal utility, the quadrature shock
discretizer, piecewise-linear interpolation with extrapolation)
are modelled from the spec, as noted on each definition.
-/

/-- Modelled from the spec: the external toolkit's CRRA marginal-utility
function for constant-relative-risk-aversion preferences,
u'(c) = c^(-rho). -/
noncomputable def CRRAutilityP (c rho : ℝ) : ℝ := c ^ (-rho)

/-- A log-AR1 dividend process, as in the notebook's `DivProcess` class.
The field `ShkAppDstn` holds the discrete approximation to the Normal
shock.  Modelled from the spec: the quadrature discretizer that produces
it lives in the external toolkit, so the process carries the resulting
finite list of (node, probability) pairs as data. -/
structure DivProcess where
  alpha : ℝ
  shock_sd : ℝ
  shock_mean : ℝ
  nApprox : ℕ
  ShkAppDstn : List (ℝ × ℝ)

/-- `np.linspace a b n`: `n` evenly spaced points from `a` to `b`. -/
noncomputable def linspace (a b : ℝ) (n : ℕ) : List ℝ :=
  (List.range n).map (fun (i : ℕ) => a + (i : ℝ) * (b - a) / ((n : ℝ) - 1))

/-- `uncond_sd` from `DivProcess.getLogdGrid`:
the unconditional standard deviation `shock_sd / sqrt(1 - alpha^2)`. -/
noncomputable def DivProcess.uncond_sd (p : DivProcess) : ℝ :=
  p.shock_sd / Real.sqrt (1 - p.alpha ^ 2)

/-- `uncond_mean` from `DivProcess.getLogdGrid`:
the unconditional mean `shock_mean / (1 - alpha)`. -/
noncomputable def DivProcess.uncond_mean (p : DivProcess) : ℝ :=
  p.shock_mean / (1 - p.alpha)

/-- `DivProcess.getLogdGrid`: `np.linspace(-5*uncond_sd, 5*uncond_sd, n)
+ uncond_mean`. -/
noncomputable def DivProcess.getLogdGrid (p : DivProcess) (n : ℕ) : List ℝ :=
  (linspace (-(5 * p.uncond_sd)) (5 * p.uncond_sd) n).map
    (fun z => z + p.uncond_mean)

/-- Modelled from the spec: the external toolkit's piecewise-linear
interpolant over a finite grid, with a flag permitting extrapolation
below the grid's lower bound (`LinearInterp(grid, vals, lower_extrap)`). -/
structure LinearInterp where
  grid : List ℝ
  vals : List ℝ
  lower_extrap : Bool

/-- The linear function through `(x0, y0)` and `(x1, y1)`, evaluated
at `x`. -/
noncomputable def interpSeg (x0 y0 x1 y1 x : ℝ) : ℝ :=
  y0 + (y1 - y0) * (x - x0) / (x1 - x0)

/-- Modelled from the spec: piecewise-linear evaluation over a sorted
grid, extending the first segment to the left of the grid and the last
segment to the right. -/
noncomputable def plEval : List ℝ → List ℝ → ℝ → ℝ
  | x0 :: x1 :: xs, y0 :: y1 :: ys, x =>
      if x ≤ x1 then interpSeg x0 y0 x1 y1 x else plEval (x1 :: xs) (y1 :: ys) x
  | _ :: _, y0 :: _, _ => y0
  | _, _, _ => 0

/-- Modelled from the spec: evaluation of the toolkit interpolant
honouring the `lower_extrap` flag.  A query below the grid's lower
bound with `lower_extrap = false` is out of domain (`none`); with
`lower_extrap = true` it extrapolates. -/
noncomputable def LinearInterp.evalOpt (li : LinearInterp) (x : ℝ) : Option ℝ :=
  match li.grid with
  | [] => none
  | g :: _ =>
      if li.lower_extrap then some (plEval li.grid li.vals x)
      else if x < g then none else some (plEval li.grid li.vals x)

/-- The two kinds of pricing function the notebook's solver passes
around: the toolkit's `ConstantFunction` (default initial guess) and
the `LinearInterp` built by `priceOnePeriod` (with `lower_extrap=True`). -/
inductive PricingFn where
  | const : ℝ → PricingFn
  | interp : LinearInterp → PricingFn

/-- Evaluation of a pricing function at a log-dividend point. -/
noncomputable def PricingFn.eval : PricingFn → ℝ → ℝ
  | PricingFn.const c, _ => c
  | PricingFn.interp li, x => plEval li.grid li.vals x

/-- An economy with Lucas trees, as in the notebook's `LucasEconomy`
class: risk aversion, discount factor and a dividend process. -/
structure LucasEconomy where
  CRRA : ℝ
  DiscFac : ℝ
  DivProcess : DivProcess

/-- `self.uP = lambda c: CRRAutilityP(c, self.CRRA)`. -/
noncomputable def LucasEconomy.uP (e : LucasEconomy) (c : ℝ) : ℝ :=
  CRRAutilityP c e.CRRA

/-- One row of `LucasEconomy.priceOnePeriod`: for the grid point
`logD_now`, sum over the shock columns of `SDF * Payoff_next * pmf`,
where `logD_next = alpha * logD_now + shock`,
`SDF = DiscFac * uP(d_next / d_now)` and `Payoff_next = P_next + d_next`. -/
noncomputable def pointPrice (e : LucasEconomy) (f : ℝ → ℝ) (logD_now : ℝ) : ℝ :=
  (e.DivProcess.ShkAppDstn.map (fun sp =>
    (e.DiscFac *
        e.uP (Real.exp (e.DivProcess.alpha * logD_now + sp.1) /
          Real.exp logD_now)) *
      (f (e.DivProcess.alpha * logD_now + sp.1) +
        Real.exp (e.DivProcess.alpha * logD_now + sp.1)) * sp.2)).sum

/-- The vector `P_now` of `priceOnePeriod`: one expectation per grid
point. -/
noncomputable def priceVals (e : LucasEconomy) (f : ℝ → ℝ) (logDGrid : List ℝ) :
    List ℝ :=
  logDGrid.map (pointPrice e f)

/-- `LucasEconomy.priceOnePeriod`: apply the pricing equation on the
grid and wrap the values in a new interpolant with `lower_extrap=True`. -/
noncomputable def LucasEconomy.priceOnePeriod (e : LucasEconomy)
    (Pfunc_next : PricingFn) (logDGrid : List ℝ) : PricingFn :=
  PricingFn.interp ⟨logDGrid, priceVals e Pfunc_next.eval logDGrid, true⟩

/-- Evaluation of a pricing function on every point of a grid
(`Pfunc(logDGrid)` in the notebook). -/
noncomputable def evalGrid (Pf : PricingFn) (grid : List ℝ) : List ℝ :=
  grid.map Pf.eval

/-- `np.linalg.norm` of the difference of two equal-length vectors:
the Euclidean (L2) norm. -/
noncomputable def l2norm (xs ys : List ℝ) : ℝ :=
  Real.sqrt (((xs.zip ys).map (fun q => (q.1 - q.2) ^ 2)).sum)

/-- The loop state of `LucasEconomy.solve`: current pricing function
`Pf`, its grid values `P`, the iteration counter `it` and the last
computed `norm`. -/
structure SolveState where
  Pf : PricingFn
  P : List ℝ
  it : ℕ
  norm : ℝ

/-- The `while norm > tol and it < maxIter` loop of
`LucasEconomy.solve`, with the remaining permitted iterations as fuel
(`fuel = maxIter - it`). -/
noncomputable def solveLoop (e : LucasEconomy) (grid : List ℝ) (tol : ℝ) :
    ℕ → PricingFn → List ℝ → ℝ → ℕ → SolveState
  | 0, Pf, P, nrm, it => ⟨Pf, P, it, nrm⟩
  | fuel + 1, Pf, P, nrm, it =>
      if nrm ≤ tol then ⟨Pf, P, it, nrm⟩
      else
        solveLoop e grid tol fuel (e.priceOnePeriod Pf grid)
          (evalGrid (e.priceOnePeriod Pf grid) grid)
          (l2norm P (evalGrid (e.priceOnePeriod Pf grid) grid)) (it + 1)

/-- The body of `LucasEconomy.solve` after the defaults are resolved:
initialize `P_0 = Pf_0(logDGrid)` and `norm = tol + 1`, then run the
iteration loop. -/
noncomputable def solveAux (e : LucasEconomy) (Pf0 : PricingFn)
    (grid : List ℝ) (tol : ℝ) (maxIter : ℕ) : SolveState :=
  solveLoop e grid tol maxIter Pf0 (evalGrid Pf0 grid) (tol + 1) 0

/-- What `LucasEconomy.solve` exposes when it finishes: the attributes
`EqlogPfun` (price as a function of log-dividend) and `EqPfun`
(price as a function of the dividend level). -/
structure SolveResult where
  EqlogPfun : PricingFn
  EqPfun : ℝ → ℝ

/-- `LucasEconomy.solve`: resolve the default initial guess
(`ConstantFunction(0.0)`) and default grid (`getLogdGrid()`, 100
points), iterate to tolerance or the iteration cap, and expose
`EqlogPfun` together with `EqPfun = lambda d: EqlogPfun(log d)`. -/
noncomputable def LucasEconomy.solve (e : LucasEconomy)
    (Pfunc_0 : Option PricingFn) (logDGrid : Option (List ℝ))
    (tol : ℝ) (maxIter : ℕ) : SolveResult :=
  ⟨(solveAux e (Pfunc_0.getD (PricingFn.const 0))
      (logDGrid.getD (e.DivProcess.getLogdGrid 100)) tol maxIter).Pf,
   fun d =>
     (solveAux e (Pfunc_0.getD (PricingFn.const 0))
        (logDGrid.getD (e.DivProcess.getLogdGrid 100)) tol maxIter).Pf.eval
       (Real.log d)⟩

/-- The sequence of pricing-function iterates produced inside a solve:
`pIter 0` is the initial guess and each successor applies the
one-period operator on the fixed grid. -/
noncomputable def pIter (e : LucasEconomy) (grid : List ℝ) (Pf0 : PricingFn) :
    ℕ → PricingFn
  | 0 => Pf0
  | n + 1 => e.priceOnePeriod (pIter e grid Pf0 n) grid

/-- Grid values of the `n`-th iterate. -/
noncomputable def gridVals (e : LucasEconomy) (grid : List ℝ) (Pf0 : PricingFn)
    (n : ℕ) : List ℝ :=
  evalGrid (pIter e grid Pf0 n) grid

/-- The norm the loop holds after `n` iterations: the initial sentinel
`tol + 1` at `n = 0`, and afterwards the L2 distance between
consecutive grid-value vectors. -/
noncomputable def normAt (e : LucasEconomy) (grid : List ℝ) (Pf0 : PricingFn)
    (tol : ℝ) : ℕ → ℝ
  | 0 => tol + 1
  | n + 1 => l2norm (gridVals e grid Pf0 n) (gridVals e grid Pf0 (n + 1))

/-! ### Helper lemmas -/

theorem list_sum_map_congr {α : Type} (l : List α) (f g : α → ℝ)
    (h : ∀ a ∈ l, f a = g a) : (l.map f).sum = (l.map g).sum := by
  induction l with
  | nil => rfl
  | cons a t ih =>
      simp only [List.map_cons, List.sum_cons]
      rw [h a (by simp), ih (fun b hb => h b (by simp [hb]))]

theorem list_sum_map_mul_snd (l : List (ℝ × ℝ)) (c : ℝ) :
    (l.map (fun sp => c * sp.2)).sum = c * (l.map Prod.snd).sum := by
  induction l with
  | nil => simp
  | cons a t ih => simp [ih]; ring

theorem linspace_length (a b : ℝ) (n : ℕ) : (linspace a b n).length = n := by
  rw [linspace, List.length_map, List.length_range]

theorem linspace_getD (a b : ℝ) (n i : ℕ) (h : i < n) :
    (linspace a b n).getD i 0 = a + (i : ℝ) * (b - a) / ((n : ℝ) - 1) := by
  rw [List.getD_eq_getElem _ _ (by rw [linspace_length]; exact h)]
  simp only [linspace, List.getElem_map, List.getElem_range]

theorem getLogdGrid_length (p : DivProcess) (n : ℕ) :
    (p.getLogdGrid n).length = n := by
  rw [DivProcess.getLogdGrid, List.length_map, linspace_length]

theorem getLogdGrid_getD (p : DivProcess) (n i : ℕ) (h : i < n) :
    (p.getLogdGrid n).getD i 0 =
      (-(5 * p.uncond_sd) + (i : ℝ) * (10 * p.uncond_sd) / ((n : ℝ) - 1)) +
        p.uncond_mean := by
  have h2 : i < (linspace (-(5 * p.uncond_sd)) (5 * p.uncond_sd) n).length := by
    rw [linspace_length]; exact h
  rw [DivProcess.getLogdGrid,
    List.getD_eq_getElem _ _ (by rw [List.length_map, linspace_length]; exact h)]
  rw [List.getElem_map, ← List.getD_eq_getElem _ 0 h2, linspace_getD _ _ _ _ h]
  ring

theorem plEval2_left (x0 x1 y0 y1 : ℝ) (h : x0 ≤ x1) :
    plEval [x0, x1] [y0, y1] x0 = y0 := by
  rw [plEval, if_pos h, interpSeg]
  simp

theorem plEval2_right (x0 x1 y0 y1 : ℝ) (h : x0 < x1) :
    plEval [x0, x1] [y0, y1] x1 = y1 := by
  rw [plEval, if_pos le_rfl, interpSeg]
  rw [mul_div_assoc, div_self (sub_ne_zero.mpr h.ne')]
  ring

theorem solveLoop_zero (e : LucasEconomy) (grid : List ℝ) (tol : ℝ)
    (Pf : PricingFn) (P : List ℝ) (nrm : ℝ) (it : ℕ) :
    solveLoop e grid tol 0 Pf P nrm it = ⟨Pf, P, it, nrm⟩ := rfl

theorem solveLoop_succ (e : LucasEconomy) (grid : List ℝ) (tol : ℝ)
    (fuel : ℕ) (Pf : PricingFn) (P : List ℝ) (nrm : ℝ) (it : ℕ) :
    solveLoop e grid tol (fuel + 1) Pf P nrm it =
      if nrm ≤ tol then ⟨Pf, P, it, nrm⟩
      else
        solveLoop e grid tol fuel (e.priceOnePeriod Pf grid)
          (evalGrid (e.priceOnePeriod Pf grid) grid)
          (l2norm P (evalGrid (e.priceOnePeriod Pf grid) grid)) (it + 1) := rfl

theorem solveLoop_it_mono (e : LucasEconomy) (grid : List ℝ) (tol : ℝ) :
    ∀ (fuel : ℕ) (Pf : PricingFn) (P : List ℝ) (nrm : ℝ) (it : ℕ),
      it ≤ (solveLoop e grid tol fuel Pf P nrm it).it := by
  intro fuel
  induction fuel with
  | zero => intro Pf P nrm it; exact le_rfl
  | succ fuel ih =>
      intro Pf P nrm it
      rw [solveLoop_succ]
      by_cases h : nrm ≤ tol
      · rw [if_pos h]
      · rw [if_neg h]
        exact le_trans (Nat.le_succ it) (ih _ _ _ _)

/-- The invariant tying a `solveLoop` run started at iterate `n` with
`fuel` remaining iterations to the abstract iterate sequence `pIter` /
`gridVals` / `normAt`. -/
def LoopOk (e : LucasEconomy) (grid : List ℝ) (Pf0 : PricingFn) (tol : ℝ)
    (n fuel : ℕ) (s : SolveState) : Prop :=
  n ≤ s.it ∧ s.it ≤ n + fuel ∧
    s.Pf = pIter e grid Pf0 s.it ∧
    s.P = gridVals e grid Pf0 s.it ∧
    s.norm = normAt e grid Pf0 tol s.it ∧
    (∀ m, n ≤ m → m < s.it → tol < normAt e grid Pf0 tol m) ∧
    (s.norm ≤ tol ∨ s.it = n + fuel)

theorem solveLoop_inv (e : LucasEconomy) (grid : List ℝ) (Pf0 : PricingFn)
    (tol : ℝ) :
    ∀ (fuel n : ℕ),
      LoopOk e grid Pf0 tol n fuel
        (solveLoop e grid tol fuel (pIter e grid Pf0 n)
          (gridVals e grid Pf0 n) (normAt e grid Pf0 tol n) n) := by
  intro fuel
  induction fuel with
  | zero =>
      intro n
      rw [solveLoop_zero]
      exact ⟨le_rfl, Nat.le_add_right n 0, rfl, rfl, rfl,
        fun m h1 h2 => absurd (lt_of_le_of_lt h1 h2) (lt_irrefl n),
        Or.inr rfl⟩
  | succ fuel ih =>
      intro n
      rw [solveLoop_succ]
      by_cases h : normAt e grid Pf0 tol n ≤ tol
      · rw [if_pos h]
        exact ⟨le_rfl, Nat.le_add_right n (fuel + 1), rfl, rfl, rfl,
          fun m h1 h2 => absurd (lt_of_le_of_lt h1 h2) (lt_irrefl n),
          Or.inl h⟩
      · rw [if_neg h]
        have step : e.priceOnePeriod (pIter e grid Pf0 n) grid =
            pIter e grid Pf0 (n + 1) := rfl
        have stepP : evalGrid (pIter e grid Pf0 (n + 1)) grid =
            gridVals e grid Pf0 (n + 1) := rfl
        have stepN :
            l2norm (gridVals e grid Pf0 n) (gridVals e grid Pf0 (n + 1)) =
              normAt e grid Pf0 tol (n + 1) := rfl
        rw [step, stepP, stepN]
        obtain ⟨h1, h2, h3, h4, h5, h6, h7⟩ := ih (n + 1)
        refine ⟨by omega, by omega, h3, h4, h5, ?_, ?_⟩
        · intro m hm hms
          rcases Nat.eq_or_lt_of_le hm with hEq | hLt
          · exact hEq ▸ lt_of_not_le h
          · exact h6 m hLt hms
        · rcases h7 with hc | hcap
          · exact Or.inl hc
          · exact Or.inr (by omega)

/-! ### Concrete economies used as inputs -/

/-- A degenerate (bounded) shock process: `alpha = 1`, a single shock
node at 0 with probability 1. -/
noncomputable def degProc : DivProcess := ⟨1, 0, 0, 1, [(0, 1)]⟩

/-- A malformed process: negative shock standard deviation. -/
noncomputable def badProc : DivProcess := ⟨1, -1, 0, 1, [(0, 1)]⟩

/-- Log-utility economy (CRRA = 1) with discount factor 9/10 and the
degenerate shock process. -/
noncomputable def econC : LucasEconomy := ⟨1, 9/10, degProc⟩

/-- A malformed economy: discount factor 2, outside (0,1), and a
process with negative shock standard deviation. -/
noncomputable def econBad : LucasEconomy := ⟨2, 2, badProc⟩

/-- A well-formed process with persistence 1/2 for witnesses. -/
noncomputable def proc2 : DivProcess := ⟨1/2, 1, 0, 7, [(0, 1)]⟩

/-- A well-formed economy for witnesses. -/
noncomputable def econW : LucasEconomy := ⟨2, 19/20, proc2⟩

/-- First iterate of `econC`'s solve on the grid `[0, log 2]`. -/
noncomputable def P1C : PricingFn :=
  PricingFn.interp ⟨[0, Real.log 2], [9/10, 9/5], true⟩

/-- Second iterate of `econC`'s solve on the grid `[0, log 2]`. -/
noncomputable def P2C : PricingFn :=
  PricingFn.interp ⟨[0, Real.log 2], [171/100, 171/50], true⟩

/-! ### Evaluation lemmas for the concrete runs -/

theorem pointPrice_deg (e : LucasEconomy) (h1 : e.DivProcess.alpha = 1)
    (h2 : e.DivProcess.ShkAppDstn = [(0, 1)]) (f : ℝ → ℝ) (x : ℝ) :
    pointPrice e f x = e.DiscFac * (f x + Real.exp x) := by
  rw [pointPrice, h1, h2]
  simp only [List.map_cons, List.map_nil, List.sum_cons, List.sum_nil,
    one_mul, add_zero, mul_one]
  rw [div_self (Real.exp_ne_zero x), LucasEconomy.uP, CRRAutilityP,
    Real.one_rpow, mul_one]

theorem interpC_eval_left (v0 v1 : ℝ) :
    plEval [0, Real.log 2] [v0, v1] 0 = v0 :=
  plEval2_left _ _ _ _ (Real.log_nonneg (by norm_num))

theorem interpC_eval_right (v0 v1 : ℝ) :
    plEval [0, Real.log 2] [v0, v1] (Real.log 2) = v1 :=
  plEval2_right _ _ _ _ (Real.log_pos (by norm_num))

theorem evalGrid_constC :
    evalGrid (PricingFn.const 0) [0, Real.log 2] = [0, 0] := by
  simp [evalGrid, PricingFn.eval]

theorem evalGrid_interpC (v0 v1 : ℝ) :
    evalGrid (PricingFn.interp ⟨[0, Real.log 2], [v0, v1], true⟩)
      [0, Real.log 2] = [v0, v1] := by
  simp only [evalGrid, List.map_cons, List.map_nil, PricingFn.eval]
  rw [interpC_eval_left, interpC_eval_right]

theorem priceVals_degC (e : LucasEconomy) (h1 : e.DivProcess.alpha = 1)
    (h2 : e.DivProcess.ShkAppDstn = [(0, 1)]) (f : ℝ → ℝ) :
    priceVals e f [0, Real.log 2] =
      [e.DiscFac * (f 0 + 1), e.DiscFac * (f (Real.log 2) + 2)] := by
  simp only [priceVals, List.map_cons, List.map_nil]
  rw [pointPrice_deg e h1 h2, pointPrice_deg e h1 h2, Real.exp_zero,
    Real.exp_log (by norm_num : (0:ℝ) < 2)]

theorem econC_step1 :
    econC.priceOnePeriod (PricingFn.const 0) [0, Real.log 2] = P1C := by
  simp only [LucasEconomy.priceOnePeriod]
  rw [priceVals_degC econC rfl rfl]
  norm_num [PricingFn.eval, econC, P1C]

theorem evalGrid_P1C : evalGrid P1C [0, Real.log 2] = [9/10, 9/5] :=
  evalGrid_interpC _ _

theorem econC_step2 :
    econC.priceOnePeriod P1C [0, Real.log 2] = P2C := by
  simp only [LucasEconomy.priceOnePeriod]
  rw [priceVals_degC econC rfl rfl]
  simp only [P1C, PricingFn.eval]
  rw [interpC_eval_left, interpC_eval_right]
  norm_num [econC, P2C]

theorem evalGrid_P2C : evalGrid P2C [0, Real.log 2] = [171/100, 171/50] :=
  evalGrid_interpC _ _

theorem l2normC1 : l2norm [0, 0] [9/10, 9/5] = Real.sqrt (81/20) := by
  rw [l2norm]
  congr 1
  norm_num [List.zip_cons_cons]

theorem l2normC2 :
    l2norm [9/10, 9/5] [171/100, 171/50] = Real.sqrt (6561/2000) := by
  rw [l2norm]
  congr 1
  norm_num [List.zip_cons_cons]

theorem sqrtC1_gt_two : ¬ Real.sqrt (81/20) ≤ 2 :=
  not_le.mpr ((Real.lt_sqrt (by norm_num)).mpr (by norm_num))

theorem sqrtC1_gt_tenth : ¬ Real.sqrt (81/20) ≤ 1/10 :=
  not_le.mpr ((Real.lt_sqrt (by norm_num)).mpr (by norm_num))

theorem sqrtC2_le_two : Real.sqrt (6561/2000) ≤ 2 := by
  have h4 : Real.sqrt 4 = 2 := by
    rw [show (4:ℝ) = 2 ^ 2 by norm_num, Real.sqrt_sq (by norm_num)]
  calc Real.sqrt (6561/2000) ≤ Real.sqrt 4 :=
        Real.sqrt_le_sqrt (by norm_num)
    _ = 2 := h4

theorem sqrtC2_gt_tenth : ¬ Real.sqrt (6561/2000) ≤ 1/10 :=
  not_le.mpr ((Real.lt_sqrt (by norm_num)).mpr (by norm_num))

theorem solveLoop_step (e : LucasEconomy) (grid : List ℝ) (tol : ℝ)
    (fuel k : ℕ) (h : fuel = k + 1) (Pf : PricingFn) (P : List ℝ)
    (nrm : ℝ) (it : ℕ) :
    solveLoop e grid tol fuel Pf P nrm it =
      if nrm ≤ tol then ⟨Pf, P, it, nrm⟩
      else
        solveLoop e grid tol k (e.priceOnePeriod Pf grid)
          (evalGrid (e.priceOnePeriod Pf grid) grid)
          (l2norm P (evalGrid (e.priceOnePeriod Pf grid) grid)) (it + 1) := by
  subst h
  exact solveLoop_succ e grid tol k Pf P nrm it

/-- The converged run: tolerance 2, cap 10, stops after 2 iterations
with norm below tolerance. -/
theorem loopA :
    solveAux econC (PricingFn.const 0) [0, Real.log 2] 2 10 =
      ⟨P2C, [171/100, 171/50], 2, Real.sqrt (6561/2000)⟩ := by
  rw [solveAux, evalGrid_constC]
  rw [solveLoop_step econC _ _ 10 9 rfl, if_neg (by norm_num : ¬ (2:ℝ) + 1 ≤ 2)]
  rw [econC_step1, evalGrid_P1C, l2normC1]
  rw [solveLoop_step econC _ _ 9 8 rfl, if_neg sqrtC1_gt_two]
  rw [econC_step2, evalGrid_P2C, l2normC2]
  rw [solveLoop_step econC _ _ 8 7 rfl, if_pos sqrtC2_le_two]

/-- The capped run: tolerance 1/10, cap 2, the loop exhausts its two
iterations with the final norm still above tolerance, ending in
exactly the same state as the converged run. -/
theorem loopB :
    solveAux econC (PricingFn.const 0) [0, Real.log 2] (1/10) 2 =
      ⟨P2C, [171/100, 171/50], 2, Real.sqrt (6561/2000)⟩ := by
  rw [solveAux, evalGrid_constC]
  rw [solveLoop_step econC _ _ 2 1 rfl,
    if_neg (by norm_num : ¬ (1/10 : ℝ) + 1 ≤ 1/10)]
  rw [econC_step1, evalGrid_P1C, l2normC1]
  rw [solveLoop_step econC _ _ 1 0 rfl, if_neg sqrtC1_gt_tenth]
  rw [econC_step2, evalGrid_P2C, l2normC2]
  rw [solveLoop_zero]

/-! ### Claim theorems -/

/-- C1: the claim says that when `solve` stops because the iteration cap
is reached before the norm falls to tolerance, the non-convergence is
reported to the caller and never conflated with success.  The code does
not do this: the run with tolerance 2 and cap 10 converges (final norm
at or below tolerance, stopping after 2 of 10 permitted iterations),
while the run with tolerance 1/10 and cap 2 exhausts its cap with the
final norm still above tolerance — yet `solve` returns literally the
same result for both, with no flag, error or other distinction. -/
theorem solve_conflates_nonconvergence :
    econC.solve (some (PricingFn.const 0)) (some [0, Real.log 2]) 2 10 =
      econC.solve (some (PricingFn.const 0)) (some [0, Real.log 2]) (1/10) 2
  ∧ (solveAux econC (PricingFn.const 0) [0, Real.log 2] 2 10).norm ≤ 2
  ∧ (solveAux econC (PricingFn.const 0) [0, Real.log 2] 2 10).it < 10
  ∧ ¬ (solveAux econC (PricingFn.const 0) [0, Real.log 2] (1/10) 2).norm ≤ 1/10
  ∧ (solveAux econC (PricingFn.const 0) [0, Real.log 2] (1/10) 2).it = 2 := by
  refine ⟨?_, ?_, ?_, ?_, ?_⟩
  · simp only [LucasEconomy.solve, Option.getD_some]
    rw [loopA, loopB]
  · rw [loopA]; exact sqrtC2_le_two
  · rw [loopA]; show (2:ℕ) < 10; norm_num
  · rw [loopB]; exact sqrtC2_gt_tenth
  · rw [loopB]

theorem pointPrice_eq (e : LucasEconomy) (f : ℝ → ℝ) (x : ℝ) :
    pointPrice e f x =
      e.DiscFac * ((e.DivProcess.ShkAppDstn.map (fun sp =>
        sp.2 * CRRAutilityP
            (Real.exp (e.DivProcess.alpha * x + sp.1) / Real.exp x) e.CRRA *
          (f (e.DivProcess.alpha * x + sp.1) +
            Real.exp (e.DivProcess.alpha * x + sp.1)))).sum) := by
  rw [pointPrice, ← List.sum_map_mul_left]
  exact list_sum_map_congr _ _ _ (fun sp _ => by rw [LucasEconomy.uP]; ring)

/-- C2: at each grid point `x`, `priceOnePeriod` computes
`DiscFac * sum over shocks of pmf * u'(exp(alpha*x + s)/exp(x)) *
(f(alpha*x + s) + exp(alpha*x + s))` with `u'` the CRRA marginal
utility, and the returned object is the piecewise-linear interpolant
over the same grid holding exactly these values. -/
theorem priceOnePeriod_formula (e : LucasEconomy) (f : ℝ → ℝ)
    (logDGrid : List ℝ) (Pf : PricingFn) :
    priceVals e f logDGrid = logDGrid.map (fun x =>
      e.DiscFac * ((e.DivProcess.ShkAppDstn.map (fun sp =>
        sp.2 * CRRAutilityP
            (Real.exp (e.DivProcess.alpha * x + sp.1) / Real.exp x) e.CRRA *
          (f (e.DivProcess.alpha * x + sp.1) +
            Real.exp (e.DivProcess.alpha * x + sp.1)))).sum))
  ∧ e.priceOnePeriod Pf logDGrid =
      PricingFn.interp ⟨logDGrid, priceVals e Pf.eval logDGrid, true⟩ := by
  constructor
  · rw [priceVals]
    have : pointPrice e f = fun x =>
        e.DiscFac * ((e.DivProcess.ShkAppDstn.map (fun sp =>
          sp.2 * CRRAutilityP
              (Real.exp (e.DivProcess.alpha * x + sp.1) / Real.exp x) e.CRRA *
            (f (e.DivProcess.alpha * x + sp.1) +
              Real.exp (e.DivProcess.alpha * x + sp.1)))).sum) :=
      funext (fun x => pointPrice_eq e f x)
    rw [this]
  · rfl

/-- C3 counterexample: an economy with discount factor 2 (outside
(0,1)) over a process with negative shock standard deviation is
constructed without any error, and `solve` happily performs a
fixed-point iteration on it and returns an ordinary interpolant —
nothing fails fast before iteration begins. -/
theorem no_validation_counterexample :
    econBad.DiscFac = 2 ∧ econBad.DivProcess.shock_sd = -1
  ∧ (solveAux econBad (PricingFn.const 0) [0, Real.log 2] (1/10) 1).it = 1
  ∧ (solveAux econBad (PricingFn.const 0) [0, Real.log 2] (1/10) 1).Pf =
      PricingFn.interp ⟨[0, Real.log 2], [2, 4], true⟩ := by
  have hstep : econBad.priceOnePeriod (PricingFn.const 0) [0, Real.log 2] =
      PricingFn.interp ⟨[0, Real.log 2], [2, 4], true⟩ := by
    simp only [LucasEconomy.priceOnePeriod]
    rw [priceVals_degC econBad rfl rfl]
    norm_num [PricingFn.eval, econBad]
  have hbad : solveAux econBad (PricingFn.const 0) [0, Real.log 2] (1/10) 1 =
      ⟨PricingFn.interp ⟨[0, Real.log 2], [2, 4], true⟩, [2, 4], 1,
        l2norm [0, 0] [2, 4]⟩ := by
    rw [solveAux, evalGrid_constC]
    rw [solveLoop_step econBad _ _ 1 0 rfl,
      if_neg (by norm_num : ¬ (1/10 : ℝ) + 1 ≤ 1/10)]
    rw [hstep, evalGrid_interpC, solveLoop_zero]
  exact ⟨rfl, rfl, by rw [hbad], by rw [hbad]⟩

/-- C3 amended: the code performs no parameter validation at all —
construction stores the parameters verbatim for any discount factor
and any shock standard deviation, and `solve` begins its fixed-point
iteration (at least one application of the operator whenever the cap
permits one) instead of failing fast. -/
theorem no_parameter_validation (crra disc : ℝ) (proc : DivProcess)
    (Pf0 : PricingFn) (grid : List ℝ) (tol : ℝ) (maxIter : ℕ)
    (h : 1 ≤ maxIter) :
    (LucasEconomy.mk crra disc proc).CRRA = crra
  ∧ (LucasEconomy.mk crra disc proc).DiscFac = disc
  ∧ (LucasEconomy.mk crra disc proc).DivProcess = proc
  ∧ 1 ≤ (solveAux (LucasEconomy.mk crra disc proc) Pf0 grid tol maxIter).it := by
  refine ⟨rfl, rfl, rfl, ?_⟩
  obtain ⟨k, rfl⟩ : ∃ k, maxIter = k + 1 := ⟨maxIter - 1, by omega⟩
  rw [solveAux, solveLoop_succ, if_neg (by norm_num : ¬ tol + 1 ≤ tol)]
  exact solveLoop_it_mono _ _ _ _ _ _ _ 1

theorem no_parameter_validation_witness :
    1 ≤ (solveAux (LucasEconomy.mk 2 2 badProc) (PricingFn.const 0)
      [0, Real.log 2] (1/10) 1).it :=
  (no_parameter_validation 2 2 badProc (PricingFn.const 0) [0, Real.log 2]
    (1/10) 1 (by norm_num)).2.2.2

/-- C4: `solve` terminates after at most `maxIter` applications of the
one-period operator (the final function is exactly the `it`-th iterate
with `it ≤ maxIter`), and it stops at the first iteration whose L2
norm of the difference between the previous and new grid evaluations
is at or below the tolerance: every earlier iteration's norm exceeds
the tolerance, and on exit either the final norm is at or below the
tolerance or the cap was reached. -/
theorem solve_terminates_and_stops_first (e : LucasEconomy) (Pf0 : PricingFn)
    (grid : List ℝ) (tol : ℝ) (maxIter : ℕ) :
    (solveAux e Pf0 grid tol maxIter).it ≤ maxIter
  ∧ (solveAux e Pf0 grid tol maxIter).Pf =
      pIter e grid Pf0 (solveAux e Pf0 grid tol maxIter).it
  ∧ (solveAux e Pf0 grid tol maxIter).norm =
      normAt e grid Pf0 tol (solveAux e Pf0 grid tol maxIter).it
  ∧ (∀ m, 0 < m → m < (solveAux e Pf0 grid tol maxIter).it →
      tol < normAt e grid Pf0 tol m)
  ∧ ((solveAux e Pf0 grid tol maxIter).norm ≤ tol ∨
      (solveAux e Pf0 grid tol maxIter).it = maxIter) := by
  have heq : solveAux e Pf0 grid tol maxIter =
      solveLoop e grid tol maxIter (pIter e grid Pf0 0)
        (gridVals e grid Pf0 0) (normAt e grid Pf0 tol 0) 0 := rfl
  obtain ⟨h1, h2, h3, h4, h5, h6, h7⟩ := solveLoop_inv e grid Pf0 tol maxIter 0
  rw [heq]
  refine ⟨by omega, h3, h5, fun m hm0 hmlt => h6 m (by omega) hmlt, ?_⟩
  rcases h7 with hc | hc
  · exact Or.inl hc
  · exact Or.inr (by omega)

theorem solve_terminates_witness :
    (solveAux econC (PricingFn.const 0) [0, Real.log 2] 2 10).it ≤ 10 ∧
    ((solveAux econC (PricingFn.const 0) [0, Real.log 2] 2 10).norm ≤ 2 ∨
      (solveAux econC (PricingFn.const 0) [0, Real.log 2] 2 10).it = 10) :=
  ⟨(solve_terminates_and_stops_first econC (PricingFn.const 0)
      [0, Real.log 2] 2 10).1,
   (solve_terminates_and_stops_first econC (PricingFn.const 0)
      [0, Real.log 2] 2 10).2.2.2.2⟩

/-- C5: every pricing-function iterate produced during a solve is an
interpolant built over the very grid the solve started with (only the
value vector differs between iterations), and the final returned
function — as soon as at least one iteration ran — is such an
interpolant over that same grid as well. -/
theorem solve_grid_invariant (e : LucasEconomy) (Pf0 : PricingFn)
    (grid : List ℝ) (tol : ℝ) (maxIter : ℕ) :
    (∀ n, 1 ≤ n → pIter e grid Pf0 n =
      PricingFn.interp ⟨grid,
        priceVals e (pIter e grid Pf0 (n - 1)).eval grid, true⟩)
  ∧ (1 ≤ (solveAux e Pf0 grid tol maxIter).it →
      (solveAux e Pf0 grid tol maxIter).Pf =
        PricingFn.interp ⟨grid,
          priceVals e
            (pIter e grid Pf0
              ((solveAux e Pf0 grid tol maxIter).it - 1)).eval grid, true⟩) := by
  have hstep : ∀ n, 1 ≤ n → pIter e grid Pf0 n =
      PricingFn.interp ⟨grid,
        priceVals e (pIter e grid Pf0 (n - 1)).eval grid, true⟩ := by
    intro n hn
    obtain ⟨k, rfl⟩ : ∃ k, n = k + 1 := ⟨n - 1, by omega⟩
    simp only [Nat.add_sub_cancel]
    rfl
  refine ⟨hstep, fun hit => ?_⟩
  have heq : solveAux e Pf0 grid tol maxIter =
      solveLoop e grid tol maxIter (pIter e grid Pf0 0)
        (gridVals e grid Pf0 0) (normAt e grid Pf0 tol 0) 0 := rfl
  obtain ⟨h1, h2, h3, h4, h5, h6, h7⟩ := solveLoop_inv e grid Pf0 tol maxIter 0
  rw [heq] at hit ⊢
  rw [h3]
  exact hstep _ hit

theorem solve_grid_invariant_witness :
    pIter econC [0, Real.log 2] (PricingFn.const 0) 1 =
      PricingFn.interp ⟨[0, Real.log 2],
        priceVals econC
          (pIter econC [0, Real.log 2] (PricingFn.const 0) (1 - 1)).eval
          [0, Real.log 2], true⟩ :=
  (solve_grid_invariant econC (PricingFn.const 0) [0, Real.log 2] 2 10).1 1
    le_rfl

/-- C6: after `solve` finishes, the solution is exposed both as a
function of log-dividend (`EqlogPfun`) and as a function of the raw
dividend level (`EqPfun`), and the pair agrees under exponentiation of
the input: `EqPfun (exp x) = EqlogPfun x` for every real `x`, and
`EqPfun d = EqlogPfun (log d)` for every `d > 0`. -/
theorem solve_level_log_agree (e : LucasEconomy) (p : Option PricingFn)
    (g : Option (List ℝ)) (tol : ℝ) (maxIter : ℕ) :
    (∀ x : ℝ, (e.solve p g tol maxIter).EqPfun (Real.exp x) =
      (e.solve p g tol maxIter).EqlogPfun.eval x)
  ∧ (∀ d : ℝ, 0 < d → (e.solve p g tol maxIter).EqPfun d =
      (e.solve p g tol maxIter).EqlogPfun.eval (Real.log d)) := by
  constructor
  · intro x
    show (solveAux e (p.getD (PricingFn.const 0))
        (g.getD (e.DivProcess.getLogdGrid 100)) tol maxIter).Pf.eval
          (Real.log (Real.exp x)) =
      (solveAux e (p.getD (PricingFn.const 0))
        (g.getD (e.DivProcess.getLogdGrid 100)) tol maxIter).Pf.eval x
    rw [Real.log_exp]
  · intro d _
    rfl

theorem solve_level_log_agree_witness :
    (econC.solve none none 2 10).EqPfun 1 =
      (econC.solve none none 2 10).EqlogPfun.eval (Real.log 1) :=
  (solve_level_log_agree econC none none 2 10).2 1 (by norm_num)

/-- C7: the interpolant returned by `priceOnePeriod` carries
`lower_extrap = true`, so evaluating it at a log-dividend strictly
below the minimum grid point yields `some` value — obtained by linear
extrapolation of the first grid segment — rather than an out-of-domain
error. -/
theorem priceOnePeriod_extrapolates_below (e : LucasEconomy)
    (Pf : PricingFn) (g0 g1 : ℝ) (gs : List ℝ) (x : ℝ)
    (hx : x < g0) (hg : g0 ≤ g1) :
    e.priceOnePeriod Pf (g0 :: g1 :: gs) =
      PricingFn.interp
        ⟨g0 :: g1 :: gs, priceVals e Pf.eval (g0 :: g1 :: gs), true⟩
  ∧ (LinearInterp.mk (g0 :: g1 :: gs)
        (priceVals e Pf.eval (g0 :: g1 :: gs)) true).evalOpt x =
      some (interpSeg g0 (pointPrice e Pf.eval g0) g1
        (pointPrice e Pf.eval g1) x) := by
  refine ⟨rfl, ?_⟩
  show (if true = true then
      some (plEval (g0 :: g1 :: gs) (priceVals e Pf.eval (g0 :: g1 :: gs)) x)
    else if x < g0 then none
    else some (plEval (g0 :: g1 :: gs) (priceVals e Pf.eval (g0 :: g1 :: gs)) x)) =
    some (interpSeg g0 (pointPrice e Pf.eval g0) g1 (pointPrice e Pf.eval g1) x)
  rw [if_pos rfl]
  simp only [priceVals, List.map_cons]
  rw [plEval, if_pos (le_of_lt (lt_of_lt_of_le hx hg))]

theorem priceOnePeriod_extrapolates_witness :
    (LinearInterp.mk ((0:ℝ) :: Real.log 2 :: [])
        (priceVals econC (PricingFn.const 0).eval
          ((0:ℝ) :: Real.log 2 :: [])) true).evalOpt (-1) =
      some (interpSeg 0 (pointPrice econC (PricingFn.const 0).eval 0)
        (Real.log 2) (pointPrice econC (PricingFn.const 0).eval (Real.log 2))
        (-1)) :=
  (priceOnePeriod_extrapolates_below econC (PricingFn.const 0) 0 (Real.log 2)
    [] (-1) (by norm_num) (Real.log_nonneg (by norm_num))).2

/-- C8: calling `solve` without an initial guess uses the constant-zero
function; calling it without a grid uses `getLogdGrid` with its default
100 points, which form an evenly spaced grid symmetric about the
unconditional mean `shock_mean/(1-alpha)` spanning plus and minus five
unconditional standard deviations `shock_sd/sqrt(1-alpha^2)`:
point `i` equals `uncond_mean - 5*uncond_sd + i * (10*uncond_sd)/99`. -/
theorem solve_default_guess_and_grid (e : LucasEconomy)
    (p : Option PricingFn) (g : Option (List ℝ)) (tol : ℝ) (maxIter : ℕ) :
    e.solve none g tol maxIter =
      e.solve (some (PricingFn.const 0)) g tol maxIter
  ∧ e.solve p none tol maxIter =
      e.solve p (some (e.DivProcess.getLogdGrid 100)) tol maxIter
  ∧ (e.DivProcess.getLogdGrid 100).length = 100
  ∧ (∀ i : ℕ, i < 100 → (e.DivProcess.getLogdGrid 100).getD i 0 =
      (-(5 * e.DivProcess.uncond_sd) +
        (i : ℝ) * (10 * e.DivProcess.uncond_sd) / ((100 : ℝ) - 1)) +
        e.DivProcess.uncond_mean) := by
  refine ⟨rfl, rfl, getLogdGrid_length _ _, ?_⟩
  intro i hi
  have h := getLogdGrid_getD e.DivProcess 100 i hi
  rw [h]
  norm_num

theorem solve_default_guess_and_grid_witness :
    (econW.DivProcess.getLogdGrid 100).getD 0 0 =
      (-(5 * econW.DivProcess.uncond_sd) +
        ((0 : ℕ) : ℝ) * (10 * econW.DivProcess.uncond_sd) / ((100 : ℝ) - 1)) +
        econW.DivProcess.uncond_mean :=
  (solve_default_guess_and_grid econW none none (1/100000) 500).2.2.2 0
    (by norm_num)

/-- C9 amended: for log utility (CRRA = 1), a proper discretized shock
distribution (weights summing to 1) and a discount factor that is
neither 0 nor 1, the closed form P*(d) = d/theta with
theta = 1/DiscFac - 1 is an exact fixed point of the one-period pricing
operator: applying the operator to it reproduces exactly these values
at every grid point. -/
theorem logUtility_closed_form_fixed_point (e : LucasEconomy)
    (grid : List ℝ) (hCRRA : e.CRRA = 1) (h0 : e.DiscFac ≠ 0)
    (h1 : e.DiscFac ≠ 1)
    (hpmf : (e.DivProcess.ShkAppDstn.map Prod.snd).sum = 1) :
    priceVals e (fun y => Real.exp y / (1 / e.DiscFac - 1)) grid =
      grid.map (fun x => Real.exp x / (1 / e.DiscFac - 1)) := by
  have hth : 1 / e.DiscFac - 1 ≠ 0 := by
    intro hz
    apply h1
    have : 1 / e.DiscFac = 1 := by linarith
    field_simp at this
    linarith
  have key : ∀ x, pointPrice e (fun y => Real.exp y / (1 / e.DiscFac - 1)) x =
      Real.exp x / (1 / e.DiscFac - 1) := by
    intro x
    have hterm : ∀ sp ∈ e.DivProcess.ShkAppDstn,
        (e.DiscFac *
            e.uP (Real.exp (e.DivProcess.alpha * x + sp.1) / Real.exp x)) *
          ((fun y => Real.exp y / (1 / e.DiscFac - 1))
              (e.DivProcess.alpha * x + sp.1) +
            Real.exp (e.DivProcess.alpha * x + sp.1)) * sp.2
        = (Real.exp x / (1 / e.DiscFac - 1)) * sp.2 := by
      intro sp _
      show (e.DiscFac *
            e.uP (Real.exp (e.DivProcess.alpha * x + sp.1) / Real.exp x)) *
          (Real.exp (e.DivProcess.alpha * x + sp.1) / (1 / e.DiscFac - 1) +
            Real.exp (e.DivProcess.alpha * x + sp.1)) * sp.2
        = (Real.exp x / (1 / e.DiscFac - 1)) * sp.2
      rw [LucasEconomy.uP, CRRAutilityP, hCRRA,
        Real.rpow_neg (by positivity), Real.rpow_one, inv_div]
      have h1b : (1:ℝ) - e.DiscFac ≠ 0 := sub_ne_zero.mpr (Ne.symm h1)
      field_simp [h1b]
      ring
    rw [pointPrice,
      list_sum_map_congr _ _
        (fun sp => (Real.exp x / (1 / e.DiscFac - 1)) * sp.2) hterm,
      list_sum_map_mul_snd, hpmf, mul_one]
  rw [priceVals, funext key]

theorem logUtility_fixed_point_witness :
    priceVals econC (fun y => Real.exp y / (1 / econC.DiscFac - 1)) [0] =
      [0].map (fun x => Real.exp x / (1 / econC.DiscFac - 1)) :=
  logUtility_closed_form_fixed_point econC [0] rfl (by norm_num [econC])
    (by norm_num [econC]) (by norm_num [econC, degProc])

/-- C9 fails as stated: `econC` has CRRA 1 and a bounded (degenerate)
shock process, and the run with tolerance 2 converges by the solver's
own criterion (final norm at or below tolerance, stopping before the
cap), yet at the grid dividend level d = 2 the converged price 171/50
differs from the closed form d/theta = 2/(1/DiscFac - 1) = 18 by far
more than the tolerance. -/
theorem logUtility_tolerance_counterexample :
    econC.CRRA = 1
  ∧ (solveAux econC (PricingFn.const 0) [0, Real.log 2] 2 10).norm ≤ 2
  ∧ (solveAux econC (PricingFn.const 0) [0, Real.log 2] 2 10).it = 2
  ∧ 2 < |(econC.solve (some (PricingFn.const 0)) (some [0, Real.log 2])
        2 10).EqPfun 2 - 2 / (1 / econC.DiscFac - 1)| := by
  refine ⟨rfl, ?_, ?_, ?_⟩
  · rw [loopA]; exact sqrtC2_le_two
  · rw [loopA]
  · have hv : (econC.solve (some (PricingFn.const 0)) (some [0, Real.log 2])
        2 10).EqPfun 2 =
        (solveAux econC (PricingFn.const 0) [0, Real.log 2] 2 10).Pf.eval
          (Real.log 2) := rfl
    rw [hv, loopA]
    have h2 : P2C.eval (Real.log 2) = 171/50 := by
      simp only [P2C, PricingFn.eval]
      exact interpC_eval_right _ _
    show (2:ℝ) < |P2C.eval (Real.log 2) - 2 / (1 / econC.DiscFac - 1)|
    rw [h2]
    have h3 : (1:ℝ) / econC.DiscFac - 1 = 1/9 := by norm_num [econC]
    rw [h3]
    rw [show (171/50 : ℝ) - 2 / (1/9) = -(729/50) by norm_num]
    rw [abs_neg, abs_of_pos (by norm_num : (0:ℝ) < 729/50)]
    norm_num

/-- C10: the default grid construction divides by `sqrt(1 - alpha^2)`
and `(1 - alpha)`, so it is only meaningful for `|alpha| < 1`; under
that precondition, with a positive shock standard deviation and at
least two points, `getLogdGrid` returns exactly `n` evenly spaced
(constant positive step) strictly increasing points. -/
theorem getLogdGrid_well_formed (p : DivProcess) (n : ℕ)
    (ha : |p.alpha| < 1) (hsd : 0 < p.shock_sd) (hn : 2 ≤ n) :
    (p.getLogdGrid n).length = n
  ∧ (∀ i : ℕ, i + 1 < n →
      (p.getLogdGrid n).getD (i + 1) 0 - (p.getLogdGrid n).getD i 0 =
        10 * p.uncond_sd / ((n : ℝ) - 1))
  ∧ 0 < 10 * p.uncond_sd / ((n : ℝ) - 1)
  ∧ List.Chain' (· < ·) (p.getLogdGrid n) := by
  have habs := abs_lt.mp ha
  have hsq : 0 < 1 - p.alpha ^ 2 := by nlinarith [habs.1, habs.2]
  have hu : 0 < p.uncond_sd := div_pos hsd (Real.sqrt_pos.mpr hsq)
  have hn1 : (0:ℝ) < (n : ℝ) - 1 := by
    have h2 : (2:ℝ) ≤ (n : ℝ) := by exact_mod_cast hn
    linarith
  have hgap : ∀ i : ℕ, i + 1 < n →
      (p.getLogdGrid n).getD (i + 1) 0 - (p.getLogdGrid n).getD i 0 =
        10 * p.uncond_sd / ((n : ℝ) - 1) := by
    intro i h
    rw [getLogdGrid_getD p n (i + 1) h, getLogdGrid_getD p n i (by omega)]
    push_cast
    ring
  have hpos : 0 < 10 * p.uncond_sd / ((n : ℝ) - 1) := by positivity
  refine ⟨getLogdGrid_length p n, hgap, hpos, ?_⟩
  rw [List.chain'_iff_get]
  intro i h
  rw [getLogdGrid_length] at h
  have hi1 : i + 1 < n := by omega
  have hb : i < (p.getLogdGrid n).length := by rw [getLogdGrid_length]; omega
  have hb1 : i + 1 < (p.getLogdGrid n).length := by
    rw [getLogdGrid_length]; omega
  simp only [List.get_eq_getElem]
  rw [← List.getD_eq_getElem _ 0 hb, ← List.getD_eq_getElem _ 0 hb1]
  have hg := hgap i hi1
  linarith

theorem getLogdGrid_well_formed_witness :
    (proc2.getLogdGrid 5).length = 5 ∧
    List.Chain' (· < ·) (proc2.getLogdGrid 5) :=
  ⟨(getLogdGrid_well_formed proc2 5
      (by rw [show proc2.alpha = (1:ℝ)/2 from rfl, abs_lt]
          constructor <;> norm_num)
      (by norm_num [proc2]) (by norm_num)).1,
   (getLogdGrid_well_formed proc2 5
      (by rw [show proc2.alpha = (1:ℝ)/2 from rfl, abs_lt]
          constructor <;> norm_num)
      (by norm_num [proc2]) (by norm_num)).2.2.2⟩
